import Mathlib

/-!
Verification development for a small object-storage library.

The library (Python) provides a storage contract save/get/exists/count/delete
over a local-filesystem backend (src/storage/local_file_storage.py), a
serializer registry (src/storage/serializers/registry.py), and two codecs
(json_serializer.py, numpy_serializer.py).

Modelling choices:
- Bytes are lists of natural numbers.
- The base directory is a flat list of named entries (file with content, or
  subdirectory).  Names are opaque strings; keys containing a path separator
  would escape the flat-directory model, so theorems that touch the
  filesystem carry a no-separator hypothesis on keys.
- The external codec engines (Python json.dumps/json.loads and numpy
  np.save/np.load) are not part of this repository; following the spec
  (sections 1, 4.1, 6) they are modelled as injective byte encoders with
  exact decoders.  Everything in local_file_storage.py, registry.py and the
  value-conversion layer of json_serializer.py is translated directly from
  the source.
-/

/-- Byte strings, modelled as lists of natural numbers. -/
abbrev Bytes := List Nat

/-- Modelled from the spec: self-delimiting encoding of a natural number used
by the external codec model (unary run of 1-bytes closed by a 0-byte). -/
def encNat (n : Nat) : Bytes :=
  List.replicate n 1 ++ [0]

/-- Decoder matching encNat; returns the decoded number and remaining bytes. -/
def decNat : Bytes → Option (Nat × Bytes)
  | [] => none
  | 0 :: rest => some (0, rest)
  | 1 :: rest =>
    match decNat rest with
    | none => none
    | some (n, r) => some (n + 1, r)
  | _ :: _ => none

/-- Modelled from the spec: encoding of an integer (sign byte then magnitude). -/
def encInt (i : Int) : Bytes :=
  match i with
  | Int.ofNat n => 0 :: encNat n
  | Int.negSucc n => 1 :: encNat n

/-- Decoder matching encInt. -/
def decInt : Bytes → Option (Int × Bytes)
  | 0 :: rest =>
    match decNat rest with
    | none => none
    | some (n, r) => some (Int.ofNat n, r)
  | 1 :: rest =>
    match decNat rest with
    | none => none
    | some (n, r) => some (Int.negSucc n, r)
  | _ => none

/-- Modelled from the spec: encoding of a character as its code point. -/
def encChar (c : Char) : Bytes :=
  encNat c.toNat

/-- Decoder matching encChar. -/
def decChar (b : Bytes) : Option (Char × Bytes) :=
  match decNat b with
  | none => none
  | some (n, r) => some (Char.ofNat n, r)

/-- Modelled from the spec: encoding of a character list (length then chars). -/
def encChars (cs : List Char) : Bytes :=
  encNat cs.length ++ (cs.map encChar).flatten

/-- Count-indexed decoder for a run of characters. -/
def decCharsN : Nat → Bytes → Option (List Char × Bytes)
  | 0, b => some ([], b)
  | n + 1, b =>
    match decChar b with
    | none => none
    | some (c, r) =>
      match decCharsN n r with
      | none => none
      | some (cs, r') => some (c :: cs, r')

/-- Modelled from the spec: encoding of a string. -/
def encStr (s : String) : Bytes :=
  encChars s.data

/-- Decoder matching encStr. -/
def decStr (b : Bytes) : Option (String × Bytes) :=
  match decNat b with
  | none => none
  | some (n, r) =>
    match decCharsN n r with
    | none => none
    | some (cs, r') => some (String.mk cs, r')

/-- JSON-compatible values: the value domain handled by the JSON serializer
(src/storage/serializers/json_serializer.py): None, bool, int, str,
lists, and dicts with string keys.  Floats are outside the model. -/
inductive JsonValue where
  | null
  | boolean (b : Bool)
  | int (n : Int)
  | str (s : String)
  | arr (items : List JsonValue)
  | obj (fields : List (String × JsonValue))

mutual

/-- Modelled from the spec: the external JSON text codec (Python json.dumps,
spec sections 1 and 4.1) as an injective byte encoding of a JSON value. -/
def encJson : JsonValue → Bytes
  | .null => [0]
  | .boolean b => [1, cond b 1 0]
  | .int n => 2 :: encInt n
  | .str s => 3 :: encStr s
  | .arr items => 4 :: (encNat items.length ++ encJsonList items)
  | .obj fields => 5 :: (encNat fields.length ++ encJsonFields fields)

/-- Encoding of a list of JSON values, element by element. -/
def encJsonList : List JsonValue → Bytes
  | [] => []
  | v :: vs => encJson v ++ encJsonList vs

/-- Encoding of the fields of a JSON object. -/
def encJsonFields : List (String × JsonValue) → Bytes
  | [] => []
  | (k, v) :: fs => encStr k ++ (encJson v ++ encJsonFields fs)

end

mutual

/-- Fuelled decoder matching encJson (the model of Python json.loads). -/
def decJson : Nat → Bytes → Option (JsonValue × Bytes)
  | 0, _ => none
  | _ + 1, 0 :: r => some (.null, r)
  | _ + 1, 1 :: 0 :: r => some (.boolean false, r)
  | _ + 1, 1 :: 1 :: r => some (.boolean true, r)
  | _ + 1, 2 :: r =>
    match decInt r with
    | none => none
    | some (n, r') => some (.int n, r')
  | _ + 1, 3 :: r =>
    match decStr r with
    | none => none
    | some (s, r') => some (.str s, r')
  | fu + 1, 4 :: r =>
    match decNat r with
    | none => none
    | some (n, r') =>
      match decJsonList fu n r' with
      | none => none
      | some (vs, r'') => some (.arr vs, r'')
  | fu + 1, 5 :: r =>
    match decNat r with
    | none => none
    | some (n, r') =>
      match decJsonFields fu n r' with
      | none => none
      | some (fs, r'') => some (.obj fs, r'')
  | _ + 1, _ => none

/-- Count-indexed decoder for a run of JSON values. -/
def decJsonList : Nat → Nat → Bytes → Option (List JsonValue × Bytes)
  | _, 0, b => some ([], b)
  | fu, n + 1, b =>
    match decJson fu b with
    | none => none
    | some (v, r) =>
      match decJsonList fu n r with
      | none => none
      | some (vs, r') => some (v :: vs, r')

/-- Count-indexed decoder for a run of JSON object fields. -/
def decJsonFields : Nat → Nat → Bytes → Option (List (String × JsonValue) × Bytes)
  | _, 0, b => some ([], b)
  | fu, n + 1, b =>
    match decStr b with
    | none => none
    | some (k, r) =>
      match decJson fu r with
      | none => none
      | some (v, r') =>
        match decJsonFields fu n r' with
        | none => none
        | some (fs, r'') => some ((k, v) :: fs, r'')

end

/-- Modelled from the spec: Python json.dumps on a JSON-compatible value. -/
def jsonDumps (v : JsonValue) : Bytes :=
  encJson v

/-- Modelled from the spec: Python json.loads; fails (DecodeError) on bytes
that are not a complete valid encoding. -/
def jsonLoads (b : Bytes) : Option JsonValue :=
  match decJson (b.length + 1) b with
  | some (v, []) => some v
  | _ => none

mutual

/-- JsonSerializer._to_json_compatible (json_serializer.py lines 53 to 84),
restricted to the JSON-compatible value domain: None and primitives are
returned as-is, dict entries get str keys (already strings here) with
converted values, list items are converted elementwise. -/
def to_json_compatible : JsonValue → JsonValue
  | .null => .null
  | .boolean b => .boolean b
  | .int n => .int n
  | .str s => .str s
  | .obj fields => .obj (tjcFields fields)
  | .arr items => .arr (tjcList items)

/-- Elementwise conversion of list items (the list/tuple branch). -/
def tjcList : List JsonValue → List JsonValue
  | [] => []
  | v :: vs => to_json_compatible v :: tjcList vs

/-- Entrywise conversion of dict fields (the dict branch). -/
def tjcFields : List (String × JsonValue) → List (String × JsonValue)
  | [] => []
  | (k, v) :: fs => (k, to_json_compatible v) :: tjcFields fs

end

/-- Numeric arrays as handled by the numpy serializer: dtype name, shape and
flat element data, the three components the .npy container preserves
exactly (numpy_serializer.py). -/
structure NdArray where
  dtype : String
  shape : List Nat
  data : List Int
deriving DecidableEq

/-- Modelled from the spec: encoding of a run of naturals. -/
def encNats (ns : List Nat) : Bytes :=
  encNat ns.length ++ (ns.map encNat).flatten

/-- Count-indexed decoder for a run of naturals. -/
def decNatsN : Nat → Bytes → Option (List Nat × Bytes)
  | 0, b => some ([], b)
  | n + 1, b =>
    match decNat b with
    | none => none
    | some (x, r) =>
      match decNatsN n r with
      | none => none
      | some (xs, r') => some (x :: xs, r')

/-- Modelled from the spec: encoding of a run of integers. -/
def encInts (is : List Int) : Bytes :=
  encNat is.length ++ (is.map encInt).flatten

/-- Count-indexed decoder for a run of integers. -/
def decIntsN : Nat → Bytes → Option (List Int × Bytes)
  | 0, b => some ([], b)
  | n + 1, b =>
    match decInt b with
    | none => none
    | some (x, r) =>
      match decIntsN n r with
      | none => none
      | some (xs, r') => some (x :: xs, r')

/-- Modelled from the spec: the external .npy container writer (numpy
np.save, spec sections 1, 4.1 and 6), preserving dtype, shape and element
data exactly. -/
def npySave (a : NdArray) : Bytes :=
  encStr a.dtype ++ encNats a.shape ++ encInts a.data

/-- Modelled from the spec: the external .npy container reader (numpy
np.load); fails (DecodeError) on bytes that are not a complete valid
container. -/
def npyLoad (b : Bytes) : Option NdArray :=
  match decStr b with
  | none => none
  | some (dt, r1) =>
    match decNat r1 with
    | none => none
    | some (ns, r2) =>
      match decNatsN ns r2 with
      | none => none
      | some (shape, r3) =>
        match decNat r3 with
        | none => none
        | some (nd, r4) =>
          match decIntsN nd r4 with
          | none => none
          | some (data, r5) =>
            match r5 with
            | [] => some (NdArray.mk dt shape data)
            | _ :: _ => none

/-- Dynamic values (Python Any) handled by the storage layer: JSON-compatible
values and numeric arrays. -/
inductive Value where
  | jsonV (j : JsonValue)
  | npyV (a : NdArray)

/-- Modelled from the spec: Python str() rendering of a numpy array, the
last-resort branch of the JSON serializer for unrecognized object shapes
(spec section 4.1). -/
def ndarrayStr (a : NdArray) : String :=
  String.intercalate " " (a.data.map (fun i => toString i))

/-- Serializer capability (src/storage/serializers/base.py): a format
identifier plus serialize/deserialize; deserialization fails with the
DecodeError kind on malformed bytes. -/
structure Serializer where
  format : String
  serialize : Value → Bytes
  deserialize : Bytes → Option Value

/-- JsonSerializer.serialize (json_serializer.py lines 28 to 39): convert to a
JSON-compatible structure, then dump.  A numeric array has no handled shape
and degrades to its string form. -/
def jsonSerializeValue : Value → Bytes
  | .jsonV j => jsonDumps (to_json_compatible j)
  | .npyV a => jsonDumps (JsonValue.str (ndarrayStr a))

/-- JsonSerializer.deserialize (json_serializer.py lines 41 to 51). -/
def jsonDeserializeValue (data : Bytes) : Option Value :=
  (jsonLoads data).map Value.jsonV

/-- The JsonSerializer instance. -/
def jsonSerializer : Serializer :=
  ⟨"json", jsonSerializeValue, jsonDeserializeValue⟩

/-- NumpySerializer.serialize (numpy_serializer.py lines 23 to 35): np.save
into a buffer.  A non-array value would be written as a pickled object
array, which the loader (allow_pickle false) rejects; the model tags that
case so decoding fails. -/
def npySerializeValue : Value → Bytes
  | .npyV a => npySave a
  | .jsonV j => 6 :: encJson j

/-- NumpySerializer.deserialize (numpy_serializer.py lines 37 to 48). -/
def npyDeserializeValue (data : Bytes) : Option Value :=
  (npyLoad data).map Value.npyV

/-- The NumpySerializer instance. -/
def numpySerializer : Serializer :=
  ⟨"npy", npySerializeValue, npyDeserializeValue⟩

/-- Python dict lookup over an association list (first matching key). -/
def dictFind {α : Type} : List (String × α) → String → Option α
  | [], _ => none
  | (k, v) :: rest, key => if k = key then some v else dictFind rest key

/-- Python dict assignment: replace the value at an existing key in place, or
append a new binding at the end. -/
def dictInsert {α : Type} : List (String × α) → String → α → List (String × α)
  | [], key, v => [(key, v)]
  | (k, w) :: rest, key, v =>
    if k = key then (key, v) :: rest else (k, w) :: dictInsert rest key v

/-- SerializerRegistry (registry.py): a dict from format name to serializer. -/
structure SerializerRegistry where
  format_map : List (String × Serializer)

/-- SerializerRegistry.register (registry.py lines 14 to 21). -/
def SerializerRegistry.register (r : SerializerRegistry) (s : Serializer) :
    SerializerRegistry :=
  ⟨dictInsert r.format_map s.format s⟩

/-- Error kinds surfaced by the storage layer.  The Python code raises
KeyError with distinct messages; the spec groups noSerializer and
unknownFormat as the UnsupportedFormat kind. -/
inductive Err where
  | noSerializer (format : String)
  | unknownFormat (format : String)
  | keyNotFound (key : String)
  | decodeError
  | isADirectory
deriving DecidableEq

/-- Whether an error is of the UnsupportedFormat kind (spec section 7). -/
def Err.isUnsupportedFormat : Err → Bool
  | .noSerializer _ => true
  | .unknownFormat _ => true
  | _ => false

/-- SerializerRegistry.get (registry.py lines 23 to 38): raises KeyError (the
UnsupportedFormat kind) when no serializer is registered for the format. -/
def SerializerRegistry.get (r : SerializerRegistry) (format : String) :
    Except Err Serializer :=
  match dictFind r.format_map format with
  | none => Except.error (Err.noSerializer format)
  | some s => Except.ok s

/-- SerializerRegistry.supported_formats (registry.py lines 40 to 43). -/
def SerializerRegistry.supported_formats (r : SerializerRegistry) : List String :=
  r.format_map.map Prod.fst

/-- A directory entry: a regular file with its content, or a subdirectory. -/
inductive EntryKind where
  | file (data : Bytes)
  | dir
deriving DecidableEq

/-- Python Path.is_file for an existing directory entry. -/
def EntryKind.isFileB : EntryKind → Bool
  | .file _ => true
  | .dir => false

/-- The contents of the storage base directory: a flat listing of uniquely
named entries (the directory listing is the index, spec section 6). -/
abbrev FS := List (String × EntryKind)

/-- Filesystem lookup by entry name (Path.exists / the start of read_bytes). -/
def fsFind : FS → String → Option EntryKind
  | [], _ => none
  | (m, e) :: rest, n => if m = n then some e else fsFind rest n

/-- Path.write_bytes: overwrite an existing regular file in place or create a
new entry; fails when the path names a directory. -/
def fsWrite : FS → String → Bytes → Option FS
  | [], n, d => some [(n, EntryKind.file d)]
  | (m, e) :: rest, n, d =>
    if m = n then
      match e with
      | .dir => none
      | .file _ => some ((n, EntryKind.file d) :: rest)
    else
      match fsWrite rest n d with
      | none => none
      | some fs' => some ((m, e) :: fs')

/-- Path.unlink: remove the entry with the given name. -/
def fsRemove : FS → String → FS
  | [], _ => []
  | (m, e) :: rest, n => if m = n then fsRemove rest n else (m, e) :: fsRemove rest n

/-- Helper for Path.suffix: scan the reversed character list of a file name
for the last dot; the accumulator carries the characters that follow the
dot, in original order. -/
def suffixRev : List Char → List Char → Option (List Char)
  | [], _ => none
  | c :: rest, acc =>
    if c = '.' then
      if acc = [] ∨ rest = [] then none else some ('.' :: acc)
    else suffixRev rest (c :: acc)

/-- CPython pathlib Path.suffix: the substring from the last dot of the final
path component, provided that dot is neither the first nor the last
character of the name; the empty string otherwise. -/
def pySuffix (name : String) : String :=
  match suffixRev name.data.reverse [] with
  | none => String.mk []
  | some cs => String.mk cs

/-- LocalFileStorage (local_file_storage.py): the storage object owns its
serializer registry; the base directory contents are the ambient FS value
threaded through each operation. -/
structure LocalFileStorage where
  registry : SerializerRegistry

/-- LocalFileStorage.FORMAT_TO_EXTENSION (local_file_storage.py lines 31 to
34). -/
def FORMAT_TO_EXTENSION : List (String × String) :=
  [("json", ".json"), ("npy", ".npy")]

/-- LocalFileStorage._get_extension (lines 57 to 72): raises KeyError (the
UnsupportedFormat kind) for a format with no known extension. -/
def get_extension (format : String) : Except Err String :=
  match dictFind FORMAT_TO_EXTENSION format with
  | none => Except.error (Err.unknownFormat format)
  | some ext => Except.ok ext

/-- LocalFileStorage._build_path (lines 74 to 86): the file name is the key
followed by the extension; the base-directory prefix is common to every
path and left implicit in the flat-directory model. -/
def build_path (key format : String) : Except Err String :=
  match get_extension format with
  | Except.error e => Except.error e
  | Except.ok ext => Except.ok (key ++ ext)

/-- LocalFileStorage.save (lines 88 to 103): look up the serializer, build the
path, serialize, write. -/
def LocalFileStorage.save (st : LocalFileStorage) (fs : FS) (key : String)
    (value : Value) (format : String) : Except Err FS :=
  match st.registry.get format with
  | Except.error e => Except.error e
  | Except.ok serializer =>
    match build_path key format with
    | Except.error e => Except.error e
    | Except.ok file_path =>
      match fsWrite fs file_path (serializer.serialize value) with
      | none => Except.error Err.isADirectory
      | some fs' => Except.ok fs'

/-- LocalFileStorage.get (lines 105 to 126): look up the serializer, build the
path, raise KeyError (NotFound kind) when nothing is at the path, read and
deserialize.  Reading a directory raises an I/O error. -/
def LocalFileStorage.get (st : LocalFileStorage) (fs : FS) (key format : String) :
    Except Err Value :=
  match st.registry.get format with
  | Except.error e => Except.error e
  | Except.ok serializer =>
    match build_path key format with
    | Except.error e => Except.error e
    | Except.ok file_path =>
      match fsFind fs file_path with
      | none => Except.error (Err.keyNotFound key)
      | some EntryKind.dir => Except.error Err.isADirectory
      | some (EntryKind.file data) =>
        match serializer.deserialize data with
        | none => Except.error Err.decodeError
        | some v => Except.ok v

/-- LocalFileStorage.exists (lines 128 to 140): build the path and test
presence; the registry is never consulted. -/
def LocalFileStorage.exists (_st : LocalFileStorage) (fs : FS) (key format : String) :
    Except Err Bool :=
  match build_path key format with
  | Except.error e => Except.error e
  | Except.ok file_path => Except.ok (fsFind fs file_path).isSome

/-- Membership of a string in a collection of strings (the Python membership
test of f.suffix in the set of supported extensions). -/
def memStr (s : String) : List String → Bool
  | [] => false
  | x :: xs => if x = s then true else memStr s xs

/-- LocalFileStorage.count (lines 142 to 150): the number of entries directly
in the base directory that are regular files whose suffix is one of the
values of FORMAT_TO_EXTENSION. -/
def LocalFileStorage.count (_st : LocalFileStorage) (fs : FS) : Nat :=
  (fs.filter (fun e =>
    e.2.isFileB && memStr (pySuffix e.1) (FORMAT_TO_EXTENSION.map Prod.snd))).length

/-- LocalFileStorage.delete (lines 152 to 168): build the path; when nothing
is there report false, otherwise unlink and report true.  Unlinking a
directory raises an I/O error. -/
def LocalFileStorage.delete (_st : LocalFileStorage) (fs : FS) (key format : String) :
    Except Err (Bool × FS) :=
  match build_path key format with
  | Except.error e => Except.error e
  | Except.ok file_path =>
    match fsFind fs file_path with
    | none => Except.ok (false, fs)
    | some EntryKind.dir => Except.error Err.isADirectory
    | some (EntryKind.file _) => Except.ok (true, fsRemove fs file_path)

/-- The registry built by LocalFileStorage.__init__ (lines 47 to 50): the
numpy serializer is registered first, then the json serializer. -/
def defaultRegistry : SerializerRegistry :=
  ((SerializerRegistry.mk []).register numpySerializer).register jsonSerializer

/-- A LocalFileStorage as produced by its constructor. -/
def defaultStorage : LocalFileStorage :=
  ⟨defaultRegistry⟩

/-- A file name has a known extension when it is a nonempty stem followed by
one of the two registered extensions.  Executable alternative
characterization of the suffix test used by count. -/
def knownExtB (name : String) : Bool :=
  (decide (5 < name.data.length) &&
    decide (name.data.drop (name.data.length - 5) = ['.', 'j', 's', 'o', 'n'])) ||
  (decide (4 < name.data.length) &&
    decide (name.data.drop (name.data.length - 4) = ['.', 'n', 'p', 'y']))

/-- A storage API call (the operations of the Storage contract, base.py). -/
inductive Op where
  | saveOp (key : String) (value : Value) (format : String)
  | getOp (key format : String)
  | existsOp (key format : String)
  | countOp
  | deleteOp (key format : String)

/-- The base-directory contents after one API call: save and delete change the
directory when they succeed; get, exists and count perform no writes in the
source, so they leave the directory as it is. -/
def stepFS (st : LocalFileStorage) (fs : FS) : Op → FS
  | .saveOp k v f =>
    match LocalFileStorage.save st fs k v f with
    | Except.ok fs' => fs'
    | Except.error _ => fs
  | .deleteOp k f =>
    match LocalFileStorage.delete st fs k f with
    | Except.ok (_, fs') => fs'
    | Except.error _ => fs
  | _ => fs

/-- The base-directory contents after a sequence of API calls. -/
def runFS (st : LocalFileStorage) (fs : FS) (ops : List Op) : FS :=
  ops.foldl (stepFS st) fs

/-- Membership of a (key, format) pair in the abstract ledger. -/
def pairMem (p : String × String) : List (String × String) → Bool
  | [] => false
  | q :: rest => if q = p then true else pairMem p rest

/-- Abstract ledger semantics of one call: a successful save records its
(key, format) pair, delete discharges the pair; get, exists and count
record nothing.  With the constructor-built registry a save succeeds
exactly for formats with a registered serializer, and a delete proceeds
exactly for formats with a known extension. -/
def absStep (S : List (String × String)) : Op → List (String × String)
  | .saveOp k _ f =>
    if (dictFind defaultRegistry.format_map f).isSome then
      if pairMem (k, f) S then S else S ++ [(k, f)]
    else S
  | .deleteOp k f =>
    if (dictFind FORMAT_TO_EXTENSION f).isSome then
      S.filter (fun q => !(decide (q = (k, f))))
    else S
  | _ => S

/-- The abstract ledger after a sequence of calls. -/
def absRun (S : List (String × String)) (ops : List Op) : List (String × String) :=
  ops.foldl absStep S

/-- Keys appearing in filesystem-mutating calls are valid identifiers: the
spec data model requires keys to be nonempty, and the flat-directory model
requires them to be free of the path separator. -/
def goodOp : Op → Prop
  | .saveOp k _ _ => k ≠ "" ∧ '/' ∉ k.data
  | .deleteOp k _ => k ≠ "" ∧ '/' ∉ k.data
  | _ => True

/-- The file name backing a (key, format) pair. -/
def pathOfPair (p : String × String) : String :=
  p.1 ++ ((dictFind FORMAT_TO_EXTENSION p.2).getD "")

/-- Correspondence between the directory contents and the abstract ledger:
the directory holds exactly one regular file per recorded pair, under the
pair's backing name, and recorded pairs have nonempty keys and known
formats. -/
def InvFS (fs : FS) (S : List (String × String)) : Prop :=
  fs.map Prod.fst = S.map pathOfPair ∧
  (∀ e ∈ fs, e.2.isFileB = true) ∧
  (∀ p ∈ S, p.1 ≠ "" ∧ (p.2 = "json" ∨ p.2 = "npy"))

/-- The value domain matching a format, per the registered serializers. -/
def formatMatches (f : String) (v : Value) : Prop :=
  (f = "json" ∧ ∃ j, v = Value.jsonV j) ∨ (f = "npy" ∧ ∃ a, v = Value.npyV a)

/-- The count described by the C4 claim text: regular files whose suffix is a
known extension, with hidden files (names beginning with a dot) excluded. -/
def claimedCountC4 (fs : FS) : Nat :=
  (fs.filter (fun e =>
    e.2.isFileB && memStr (pySuffix e.1) (FORMAT_TO_EXTENSION.map Prod.snd) &&
      !(decide (e.1.data.head? = some '.')))).length

theorem decNat_encNat (n : Nat) (r : Bytes) :
    decNat (encNat n ++ r) = some (n, r) := by
  induction n with
  | zero => simp [encNat, decNat]
  | succ m ih =>
    have h1 : encNat (m + 1) ++ r = 1 :: (encNat m ++ r) := by
      simp [encNat, List.replicate_succ]
    rw [h1]
    simp only [decNat, ih]

theorem decNat_some_length (b : Bytes) (n : Nat) (r : Bytes)
    (h : decNat b = some (n, r)) : r.length < b.length := by
  induction b generalizing n r with
  | nil => simp [decNat] at h
  | cons x xs ih =>
    cases x with
    | zero =>
      simp only [decNat, Option.some.injEq, Prod.mk.injEq] at h
      obtain ⟨h1, h2⟩ := h
      subst h2
      simp
    | succ y =>
      cases y with
      | zero =>
        simp only [decNat] at h
        cases hx : decNat xs with
        | none => rw [hx] at h; simp at h
        | some p =>
          rw [hx] at h
          simp only [Option.some.injEq, Prod.mk.injEq] at h
          obtain ⟨h1, h2⟩ := h
          subst h2
          have hlt := ih p.1 p.2 (by rw [hx])
          exact Nat.lt_trans hlt (by simp)
      | succ z => simp [decNat] at h

theorem decInt_encInt (i : Int) (r : Bytes) :
    decInt (encInt i ++ r) = some (i, r) := by
  cases i with
  | ofNat n => simp [encInt, decInt, decNat_encNat]
  | negSucc n => simp [encInt, decInt, decNat_encNat]

theorem decChar_encChar (c : Char) (r : Bytes) :
    decChar (encChar c ++ r) = some (c, r) := by
  simp [encChar, decChar, decNat_encNat, Char.ofNat_toNat]

theorem decCharsN_encChars (cs : List Char) (r : Bytes) :
    decCharsN cs.length ((cs.map encChar).flatten ++ r) = some (cs, r) := by
  induction cs with
  | nil => simp [decCharsN]
  | cons c cs ih =>
    simp only [List.map_cons, List.flatten_cons, List.length_cons, List.append_assoc]
    simp [decCharsN, decChar_encChar, ih]

theorem decStr_encStr (s : String) (r : Bytes) :
    decStr (encStr s ++ r) = some (s, r) := by
  cases s with
  | mk cs =>
    simp only [encStr, encChars, List.append_assoc, decStr, decNat_encNat]
    simp [decCharsN_encChars]

theorem decJson_encJson_all : ∀ fu : Nat,
    (∀ (v : JsonValue) (r : Bytes), (encJson v).length ≤ fu →
      decJson fu (encJson v ++ r) = some (v, r)) ∧
    (∀ (vs : List JsonValue) (r : Bytes), (encJsonList vs).length ≤ fu →
      decJsonList fu vs.length (encJsonList vs ++ r) = some (vs, r)) ∧
    (∀ (fs : List (String × JsonValue)) (r : Bytes), (encJsonFields fs).length ≤ fu →
      decJsonFields fu fs.length (encJsonFields fs ++ r) = some (fs, r)) := by
  intro fu
  induction fu with
  | zero =>
    refine ⟨?_, ?_, ?_⟩
    · intro v r h
      exfalso
      cases v <;> simp [encJson] at h
    · intro vs r h
      cases vs with
      | nil => simp [encJsonList, decJsonList]
      | cons v vs =>
        exfalso
        cases v <;> simp [encJsonList, encJson] at h
    · intro fs r h
      cases fs with
      | nil => simp [encJsonFields, decJsonFields]
      | cons f fs =>
        exfalso
        simp [encJsonFields, encStr, encChars, encNat] at h
  | succ fu ih =>
    obtain ⟨ihA, ihB, ihC⟩ := ih
    have hA : ∀ (v : JsonValue) (r : Bytes), (encJson v).length ≤ fu + 1 →
        decJson (fu + 1) (encJson v ++ r) = some (v, r) := by
      intro v r h
      cases v with
      | null => simp [encJson, decJson]
      | boolean b => cases b <;> simp [encJson, decJson]
      | int n => simp [encJson, decJson, decInt_encInt]
      | str s => simp [encJson, decJson, decStr_encStr]
      | arr items =>
        have hlen : (encJsonList items).length ≤ fu := by
          simp only [encJson, List.length_cons, encNat, List.length_append,
            List.length_replicate] at h
          omega
        simp only [encJson, List.cons_append, List.append_assoc, decJson, decNat_encNat]
        rw [ihB items r hlen]
      | obj fields =>
        have hlen : (encJsonFields fields).length ≤ fu := by
          simp only [encJson, List.length_cons, encNat, List.length_append,
            List.length_replicate] at h
          omega
        simp only [encJson, List.cons_append, List.append_assoc, decJson, decNat_encNat]
        rw [ihC fields r hlen]
    refine ⟨hA, ?_, ?_⟩
    · intro vs
      induction vs with
      | nil => intro r h; simp [encJsonList, decJsonList]
      | cons v vs ihvs =>
        intro r h
        simp only [encJsonList, List.length_append] at h
        simp only [encJsonList, List.length_cons, List.append_assoc, decJsonList]
        rw [hA v (encJsonList vs ++ r) (by omega)]
        simp [ihvs r (by omega)]
    · intro fs
      induction fs with
      | nil => intro r h; simp [encJsonFields, decJsonFields]
      | cons f fs ihfs =>
        intro r h
        obtain ⟨k, v⟩ := f
        simp only [encJsonFields, List.length_append] at h
        simp only [encJsonFields, List.length_cons, List.append_assoc, decJsonFields,
          decStr_encStr]
        rw [hA v (encJsonFields fs ++ r) (by omega)]
        simp [ihfs r (by omega)]

theorem jsonLoads_jsonDumps (v : JsonValue) : jsonLoads (jsonDumps v) = some v := by
  have h := (decJson_encJson_all ((encJson v).length + 1)).1 v []
    (Nat.le_succ _)
  rw [List.append_nil] at h
  simp [jsonLoads, jsonDumps, h]

mutual

theorem to_json_compatible_id : ∀ v : JsonValue, to_json_compatible v = v
  | .null => rfl
  | .boolean _ => rfl
  | .int _ => rfl
  | .str _ => rfl
  | .obj fields => by rw [to_json_compatible, tjcFields_id]
  | .arr items => by rw [to_json_compatible, tjcList_id]

theorem tjcList_id : ∀ vs : List JsonValue, tjcList vs = vs
  | [] => rfl
  | v :: vs => by rw [tjcList, to_json_compatible_id, tjcList_id]

theorem tjcFields_id : ∀ fs : List (String × JsonValue), tjcFields fs = fs
  | [] => rfl
  | (k, v) :: fs => by rw [tjcFields, to_json_compatible_id, tjcFields_id]

end

theorem decNatsN_encNats (ns : List Nat) (r : Bytes) :
    decNatsN ns.length ((ns.map encNat).flatten ++ r) = some (ns, r) := by
  induction ns with
  | nil => simp [decNatsN]
  | cons x xs ih =>
    simp only [List.map_cons, List.flatten_cons, List.length_cons, List.append_assoc]
    simp [decNatsN, decNat_encNat, ih]

theorem decIntsN_encInts (is : List Int) (r : Bytes) :
    decIntsN is.length ((is.map encInt).flatten ++ r) = some (is, r) := by
  induction is with
  | nil => simp [decIntsN]
  | cons x xs ih =>
    simp only [List.map_cons, List.flatten_cons, List.length_cons, List.append_assoc]
    simp [decIntsN, decInt_encInt, ih]

theorem npyLoad_npySave (a : NdArray) : npyLoad (npySave a) = some a := by
  obtain ⟨dt, shape, data⟩ := a
  have h1 : npySave (NdArray.mk dt shape data) =
      encStr dt ++ (encNat shape.length ++ ((shape.map encNat).flatten ++
        (encNat data.length ++ (data.map encInt).flatten))) := by
    simp [npySave, encNats, encInts]
  have h4 : decIntsN data.length ((data.map encInt).flatten) = some (data, []) := by
    simpa using decIntsN_encInts data []
  rw [h1]
  simp [npyLoad, decStr_encStr, decNat_encNat, decNatsN_encNats, h4]

theorem fsFind_none_iff (fs : FS) (p : String) :
    fsFind fs p = none ↔ p ∉ fs.map Prod.fst := by
  induction fs with
  | nil => simp [fsFind]
  | cons e rest ih =>
    obtain ⟨m, k⟩ := e
    by_cases h : m = p
    · subst h
      simp [fsFind]
    · simp [fsFind, h, ih, Ne.symm h]

theorem fsFind_isSome_iff (fs : FS) (p : String) :
    (fsFind fs p).isSome = true ↔ p ∈ fs.map Prod.fst := by
  rw [Option.isSome_iff_ne_none]
  rw [not_iff_comm]
  simp [fsFind_none_iff]

theorem fsFind_mem (fs : FS) (p : String) (e : EntryKind)
    (h : fsFind fs p = some e) : (p, e) ∈ fs := by
  induction fs with
  | nil => simp [fsFind] at h
  | cons x rest ih =>
    obtain ⟨m, k⟩ := x
    by_cases hm : m = p
    · subst hm
      simp only [fsFind, if_true, eq_self_iff_true, Option.some.injEq] at h
      subst h
      simp
    · simp only [fsFind, if_neg hm] at h
      simp [ih h]

theorem fsWrite_of_find_none (fs : FS) (p : String) (b : Bytes)
    (h : fsFind fs p = none) :
    fsWrite fs p b = some (fs ++ [(p, EntryKind.file b)]) := by
  induction fs with
  | nil => simp [fsWrite]
  | cons x rest ih =>
    obtain ⟨m, k⟩ := x
    by_cases hm : m = p
    · subst hm
      simp [fsFind] at h
    · simp only [fsFind, if_neg hm] at h
      simp [fsWrite, hm, ih h]

theorem fsWrite_total_of_files (fs : FS) (p : String) (b : Bytes)
    (hfiles : ∀ e ∈ fs, e.2.isFileB = true) :
    ∃ fs', fsWrite fs p b = some fs' ∧
      fsFind fs' p = some (EntryKind.file b) ∧
      (∀ e ∈ fs', e.2.isFileB = true) ∧
      (∀ q, q ≠ p → fsFind fs' q = fsFind fs q) ∧
      fs'.map Prod.fst =
        (if (fsFind fs p).isSome then fs.map Prod.fst else fs.map Prod.fst ++ [p]) := by
  induction fs with
  | nil =>
    refine ⟨[(p, EntryKind.file b)], rfl, by simp [fsFind], by simp [EntryKind.isFileB],
      ?_, by simp [fsFind]⟩
    intro q hq
    simp [fsFind, Ne.symm hq]
  | cons x rest ih =>
    obtain ⟨m, k⟩ := x
    by_cases hm : m = p
    · subst hm
      have hk : k.isFileB = true := hfiles (m, k) (by simp)
      cases k with
      | dir => simp [EntryKind.isFileB] at hk
      | file d =>
        refine ⟨(m, EntryKind.file b) :: rest, ?_, ?_, ?_, ?_, ?_⟩
        · simp [fsWrite]
        · simp [fsFind]
        · intro e he
          rcases List.mem_cons.mp he with h1 | h1
          · subst h1; rfl
          · exact hfiles e (by simp [h1])
        · intro q hq
          simp [fsFind, Ne.symm hq]
        · simp [fsFind]
    · have hrest : ∀ e ∈ rest, e.2.isFileB = true := by
        intro e he; exact hfiles e (by simp [he])
      obtain ⟨fs', h1, h2, h3, h4, h5⟩ := ih hrest
      refine ⟨(m, k) :: fs', ?_, ?_, ?_, ?_, ?_⟩
      · simp [fsWrite, hm, h1]
      · simp [fsFind, hm, h2]
      · intro e he
        rcases List.mem_cons.mp he with h6 | h6
        · subst h6; exact hfiles (m, k) (by simp)
        · exact h3 e h6
      · intro q hq
        by_cases hq2 : m = q
        · subst hq2; simp [fsFind]
        · simp [fsFind, hq2, h4 q hq]
      · simp only [fsFind, if_neg hm]
        by_cases hp : (fsFind rest p).isSome
        · simp only [hp, if_pos] at h5 ⊢
          simp [h5]
        · simp only [hp, if_neg, Bool.not_eq_true] at h5 ⊢
          simp [h5]

theorem fsWrite_find_ne (fs fs' : FS) (p q : String) (b : Bytes)
    (h : fsWrite fs p b = some fs') (hq : q ≠ p) :
    fsFind fs' q = fsFind fs q := by
  induction fs generalizing fs' with
  | nil =>
    simp only [fsWrite, Option.some.injEq] at h
    subst h
    simp [fsFind, Ne.symm hq]
  | cons x rest ih =>
    obtain ⟨m, k⟩ := x
    by_cases hm : m = p
    · subst hm
      cases k with
      | dir => simp [fsWrite] at h
      | file d =>
        simp only [fsWrite, if_true, eq_self_iff_true, Option.some.injEq] at h
        subst h
        simp [fsFind, Ne.symm hq]
    · simp only [fsWrite, if_neg hm] at h
      cases hw : fsWrite rest p b with
      | none => rw [hw] at h; simp at h
      | some fsr =>
        rw [hw] at h
        simp only [Option.some.injEq] at h
        subst h
        by_cases hq2 : m = q
        · subst hq2; simp [fsFind]
        · simp [fsFind, hq2, ih fsr hw]

theorem fsRemove_find_self (fs : FS) (p : String) :
    fsFind (fsRemove fs p) p = none := by
  induction fs with
  | nil => simp [fsRemove, fsFind]
  | cons x rest ih =>
    obtain ⟨m, k⟩ := x
    by_cases hm : m = p
    · subst hm; simp [fsRemove, ih]
    · simp [fsRemove, hm, fsFind, ih]

theorem fsRemove_find_ne (fs : FS) (p q : String) (hq : q ≠ p) :
    fsFind (fsRemove fs p) q = fsFind fs q := by
  induction fs with
  | nil => simp [fsRemove]
  | cons x rest ih =>
    obtain ⟨m, k⟩ := x
    by_cases hm : m = p
    · subst hm
      simp [fsRemove, fsFind, Ne.symm hq, ih]
    · by_cases hq2 : m = q
      · subst hq2; simp [fsRemove, hm, fsFind]
      · simp [fsRemove, hm, fsFind, hq2, ih]

theorem fsRemove_map_fst (fs : FS) (p : String) :
    (fsRemove fs p).map Prod.fst = (fs.map Prod.fst).filter (fun n => decide (n ≠ p)) := by
  induction fs with
  | nil => simp [fsRemove]
  | cons x rest ih =>
    obtain ⟨m, k⟩ := x
    by_cases hm : m = p
    · subst hm; simp [fsRemove, List.filter, ih]
    · simp [fsRemove, hm, List.filter, ih]

theorem fsRemove_files (fs : FS) (p : String)
    (hfiles : ∀ e ∈ fs, e.2.isFileB = true) :
    ∀ e ∈ fsRemove fs p, e.2.isFileB = true := by
  induction fs with
  | nil => simp [fsRemove]
  | cons x rest ih =>
    obtain ⟨m, k⟩ := x
    have hrest : ∀ e ∈ rest, e.2.isFileB = true := by
      intro e he; exact hfiles e (by simp [he])
    by_cases hm : m = p
    · subst hm; simpa [fsRemove] using ih hrest
    · intro e he
      simp only [fsRemove, if_neg hm] at he
      rcases List.mem_cons.mp he with h1 | h1
      · subst h1; exact hfiles (m, k) (by simp)
      · exact ih hrest e h1

theorem string_mk_append (a b : List Char) :
    String.mk a ++ String.mk b = String.mk (a ++ b) := rfl

theorem data_ne_nil_of_ne_empty (s : String) (h : s ≠ "") : s.data ≠ [] := by
  cases s with
  | mk cs => exact fun hc => h (String.ext hc)

theorem pySuffix_append_json (k : String) (hk : k ≠ "") :
    pySuffix (k ++ ".json") = ".json" := by
  obtain ⟨cs⟩ := k
  have hcs : cs ≠ [] := by
    intro hc
    exact hk (String.ext hc)
  have hrev : cs.reverse ≠ [] := by simpa using hcs
  have hdata : (String.mk cs ++ ".json").data = cs ++ ['.', 'j', 's', 'o', 'n'] := rfl
  rw [pySuffix, hdata, List.reverse_append]
  simp [suffixRev, hrev]

theorem pySuffix_append_npy (k : String) (hk : k ≠ "") :
    pySuffix (k ++ ".npy") = ".npy" := by
  obtain ⟨cs⟩ := k
  have hcs : cs ≠ [] := by
    intro hc
    exact hk (String.ext hc)
  have hrev : cs.reverse ≠ [] := by simpa using hcs
  have hdata : (String.mk cs ++ ".npy").data = cs ++ ['.', 'n', 'p', 'y'] := rfl
  rw [pySuffix, hdata, List.reverse_append]
  simp [suffixRev, hrev]

theorem suffixRev_spec (rcs : List Char) :
    ∀ (acc out : List Char), suffixRev rcs acc = some out →
      ∃ pre rest, rcs = pre ++ '.' :: rest ∧ rest ≠ [] ∧
        pre.reverse ++ acc ≠ [] ∧ out = '.' :: (pre.reverse ++ acc) := by
  induction rcs with
  | nil => intro acc out h; simp [suffixRev] at h
  | cons c rest ih =>
    intro acc out h
    by_cases hc : c = '.'
    · subst hc
      simp only [suffixRev, if_true, eq_self_iff_true] at h
      by_cases h2 : acc = [] ∨ rest = []
      · rw [if_pos h2] at h; simp at h
      · rw [if_neg h2] at h
        simp only [Option.some.injEq] at h
        push_neg at h2
        exact ⟨[], rest, by simp, h2.2, by simpa using h2.1, by simpa using h.symm⟩
    · simp only [suffixRev, if_neg hc] at h
      obtain ⟨pre, rest', h1, h2, h3, h4⟩ := ih (c :: acc) out h
      refine ⟨c :: pre, rest', by simp [h1], h2, ?_, ?_⟩
      · simp
      · simpa [List.append_assoc] using h4

theorem pySuffix_split (name : String) (cs : List Char)
    (h : pySuffix name = String.mk ('.' :: cs)) :
    ∃ stem : List Char, stem ≠ [] ∧ name.data = stem ++ '.' :: cs := by
  rw [pySuffix] at h
  cases hsr : suffixRev name.data.reverse [] with
  | none =>
    rw [hsr] at h
    have : ([] : List Char) = '.' :: cs := congrArg String.data h
    simp at this
  | some out =>
    rw [hsr] at h
    have hout : out = '.' :: cs := congrArg String.data h
    obtain ⟨pre, rest, h1, h2, _h3, h4⟩ := suffixRev_spec _ _ _ hsr
    have hpre : pre.reverse = cs := by
      rw [hout] at h4
      exact (by simpa using h4 : cs = pre.reverse).symm
    refine ⟨rest.reverse, by simpa using h2, ?_⟩
    have h5 : name.data = (pre ++ '.' :: rest).reverse := by
      rw [← h1, List.reverse_reverse]
    rw [h5, List.reverse_append, List.reverse_cons, List.append_assoc, hpre]
    simp

theorem memStr_exts (s : String) :
    memStr s (FORMAT_TO_EXTENSION.map Prod.snd) = true ↔
      s = ".json" ∨ s = ".npy" := by
  show memStr s [".json", ".npy"] = true ↔ _
  by_cases h1 : (".json" : String) = s
  · subst h1
    simp [memStr]
  · by_cases h2 : (".npy" : String) = s
    · subst h2
      simp [memStr, h1]
    · simp [memStr, h1, h2, Ne.symm h1, Ne.symm h2]

theorem knownExtB_iff (name : String) :
    knownExtB name = true ↔
      ∃ stem : String, stem ≠ "" ∧
        (name = stem ++ ".json" ∨ name = stem ++ ".npy") := by
  constructor
  · intro h
    rw [knownExtB, Bool.or_eq_true, Bool.and_eq_true, Bool.and_eq_true] at h
    rcases h with ⟨h1, h2⟩ | ⟨h1, h2⟩
    · rw [decide_eq_true_iff] at h1 h2
      refine ⟨String.mk (name.data.take (name.data.length - 5)), ?_, Or.inl ?_⟩
      · intro hc
        have h4 : name.data.take (name.data.length - 5) = [] := congrArg String.data hc
        have h3 : min (name.data.length - 5) name.data.length = 0 := by
          rw [← List.length_take, h4]
          rfl
        omega
      · apply String.ext
        rw [string_mk_append]
        show name.data = _ ++ ['.', 'j', 's', 'o', 'n']
        rw [← h2]
        exact (List.take_append_drop _ _).symm
    · rw [decide_eq_true_iff] at h1 h2
      refine ⟨String.mk (name.data.take (name.data.length - 4)), ?_, Or.inr ?_⟩
      · intro hc
        have h4 : name.data.take (name.data.length - 4) = [] := congrArg String.data hc
        have h3 : min (name.data.length - 4) name.data.length = 0 := by
          rw [← List.length_take, h4]
          rfl
        omega
      · apply String.ext
        rw [string_mk_append]
        show name.data = _ ++ ['.', 'n', 'p', 'y']
        rw [← h2]
        exact (List.take_append_drop _ _).symm
  · rintro ⟨stem, hs, h | h⟩
    · subst h
      have hd : (stem ++ ".json").data = stem.data ++ ['.', 'j', 's', 'o', 'n'] := by
        cases stem; rfl
      have hsd := data_ne_nil_of_ne_empty stem hs
      rw [knownExtB, Bool.or_eq_true]
      left
      rw [Bool.and_eq_true]
      constructor
      · rw [decide_eq_true_iff, hd]
        simp only [List.length_append, List.length_cons]
        have := List.length_pos.mpr hsd
        omega
      · rw [decide_eq_true_iff, hd]
        have hl : (stem.data ++ ['.', 'j', 's', 'o', 'n']).length - 5 = stem.data.length := by
          simp
        rw [hl, List.drop_left]
    · subst h
      have hd : (stem ++ ".npy").data = stem.data ++ ['.', 'n', 'p', 'y'] := by
        cases stem; rfl
      have hsd := data_ne_nil_of_ne_empty stem hs
      rw [knownExtB, Bool.or_eq_true]
      right
      rw [Bool.and_eq_true]
      constructor
      · rw [decide_eq_true_iff, hd]
        simp only [List.length_append, List.length_cons]
        have := List.length_pos.mpr hsd
        omega
      · rw [decide_eq_true_iff, hd]
        have hl : (stem.data ++ ['.', 'n', 'p', 'y']).length - 4 = stem.data.length := by
          simp
        rw [hl, List.drop_left]

theorem suffix_mem_iff_known (name : String) :
    memStr (pySuffix name) (FORMAT_TO_EXTENSION.map Prod.snd) = knownExtB name := by
  rw [Bool.eq_iff_iff, memStr_exts, knownExtB_iff]
  constructor
  · rintro (h | h)
    · obtain ⟨stem, hstem, hdata⟩ := pySuffix_split name ['j', 's', 'o', 'n'] h
      refine ⟨String.mk stem, ?_, Or.inl ?_⟩
      · intro hc
        exact hstem (congrArg String.data hc)
      · apply String.ext
        rw [string_mk_append]
        exact hdata
    · obtain ⟨stem, hstem, hdata⟩ := pySuffix_split name ['n', 'p', 'y'] h
      refine ⟨String.mk stem, ?_, Or.inr ?_⟩
      · intro hc
        exact hstem (congrArg String.data hc)
      · apply String.ext
        rw [string_mk_append]
        exact hdata
  · rintro ⟨stem, hs, h | h⟩
    · subst h
      exact Or.inl (pySuffix_append_json stem hs)
    · subst h
      exact Or.inr (pySuffix_append_npy stem hs)

theorem json_npy_path_ne (k₁ k₂ : String) : k₁ ++ ".json" ≠ k₂ ++ ".npy" := by
  intro h
  have hd : k₁.data ++ ['.', 'j', 's', 'o', 'n'] = k₂.data ++ ['.', 'n', 'p', 'y'] := by
    have := congrArg String.data h
    rwa [String.data_append, String.data_append] at this
  have h1 : (k₁.data ++ ['.', 'j', 's', 'o', 'n']).getLast? = some 'n' := by
    rw [List.getLast?_append_of_ne_nil _ (by simp)]
    rfl
  have h2 : (k₂.data ++ ['.', 'n', 'p', 'y']).getLast? = some 'y' := by
    rw [List.getLast?_append_of_ne_nil _ (by simp)]
    rfl
  rw [hd, h2] at h1
  simp at h1

theorem append_right_cancel_str (k₁ k₂ e : String) (h : k₁ ++ e = k₂ ++ e) :
    k₁ = k₂ := by
  have hd := congrArg String.data h
  rw [String.data_append, String.data_append] at hd
  exact String.ext (List.append_cancel_right hd)

theorem dictFind_dictInsert_self {α : Type} (m : List (String × α)) (k : String) (v : α) :
    dictFind (dictInsert m k v) k = some v := by
  induction m with
  | nil => simp [dictInsert, dictFind]
  | cons x rest ih =>
    obtain ⟨m1, w⟩ := x
    by_cases hm : m1 = k
    · subst hm; simp [dictInsert, dictFind]
    · simp [dictInsert, hm, dictFind, ih]

theorem dictInsert_idem {α : Type} (m : List (String × α)) (k : String) (v : α) :
    dictInsert (dictInsert m k v) k v = dictInsert m k v := by
  induction m with
  | nil => simp [dictInsert]
  | cons x rest ih =>
    obtain ⟨m1, w⟩ := x
    by_cases hm : m1 = k
    · subst hm; simp [dictInsert]
    · simp [dictInsert, hm, ih]

theorem registry_find_json :
    dictFind defaultRegistry.format_map "json" = some jsonSerializer := by
  simp [defaultRegistry, SerializerRegistry.register, dictInsert, dictFind,
    jsonSerializer, numpySerializer]

theorem registry_find_npy :
    dictFind defaultRegistry.format_map "npy" = some numpySerializer := by
  simp [defaultRegistry, SerializerRegistry.register, dictInsert, dictFind,
    jsonSerializer, numpySerializer]

theorem registry_find_cases (f : String) (s : Serializer)
    (h : dictFind defaultRegistry.format_map f = some s) :
    (f = "npy" ∧ s = numpySerializer) ∨ (f = "json" ∧ s = jsonSerializer) := by
  by_cases h1 : f = "npy"
  · subst h1
    rw [registry_find_npy] at h
    exact Or.inl ⟨rfl, (Option.some.injEq _ _).mp h.symm⟩
  · by_cases h2 : f = "json"
    · subst h2
      rw [registry_find_json] at h
      exact Or.inr ⟨rfl, (Option.some.injEq _ _).mp h.symm⟩
    · exfalso
      have hn : dictFind defaultRegistry.format_map f = none := by
        simp [defaultRegistry, SerializerRegistry.register, dictInsert, dictFind,
          jsonSerializer, numpySerializer, Ne.symm h1, Ne.symm h2]
      rw [hn] at h
      exact Option.noConfusion h

theorem ext_find_json : dictFind FORMAT_TO_EXTENSION "json" = some ".json" := by
  simp [FORMAT_TO_EXTENSION, dictFind]

theorem ext_find_npy : dictFind FORMAT_TO_EXTENSION "npy" = some ".npy" := by
  simp [FORMAT_TO_EXTENSION, dictFind]

theorem ext_find_none (f : String) (h1 : f ≠ "json") (h2 : f ≠ "npy") :
    dictFind FORMAT_TO_EXTENSION f = none := by
  simp [FORMAT_TO_EXTENSION, dictFind, Ne.symm h1, Ne.symm h2]

theorem json_serializer_roundtrip (v : JsonValue) :
    jsonDeserializeValue (jsonSerializeValue (Value.jsonV v)) = some (Value.jsonV v) := by
  simp [jsonSerializeValue, jsonDeserializeValue, to_json_compatible_id, jsonLoads_jsonDumps]

theorem npy_serializer_roundtrip (a : NdArray) :
    npyDeserializeValue (npySerializeValue (Value.npyV a)) = some (Value.npyV a) := by
  simp [npySerializeValue, npyDeserializeValue, npyLoad_npySave]

theorem pathOfPair_json (k : String) : pathOfPair (k, "json") = k ++ ".json" := by
  simp [pathOfPair, ext_find_json]

theorem pathOfPair_npy (k : String) : pathOfPair (k, "npy") = k ++ ".npy" := by
  simp [pathOfPair, ext_find_npy]

theorem pathOfPair_inj (p q : String × String)
    (hp : p.2 = "json" ∨ p.2 = "npy") (hq : q.2 = "json" ∨ q.2 = "npy")
    (h : pathOfPair p = pathOfPair q) : p = q := by
  obtain ⟨k1, f1⟩ := p
  obtain ⟨k2, f2⟩ := q
  simp only at hp hq
  rcases hp with h1 | h1 <;> rcases hq with h2 | h2 <;> subst h1 <;> subst h2
  · rw [pathOfPair_json, pathOfPair_json] at h
    rw [append_right_cancel_str k1 k2 ".json" h]
  · rw [pathOfPair_json, pathOfPair_npy] at h
    exact absurd h (json_npy_path_ne k1 k2)
  · rw [pathOfPair_npy, pathOfPair_json] at h
    exact absurd h.symm (json_npy_path_ne k2 k1)
  · rw [pathOfPair_npy, pathOfPair_npy] at h
    rw [append_right_cancel_str k1 k2 ".npy" h]

/-- C1: for every key, value and format with a registered serializer (the
constructor registers json and npy), get immediately after save returns a
value structurally equal to the saved one: equal JSON structure for the
json format, equal dtype, shape and elements for the npy format. -/
theorem claim_C1 (fs : FS) (k : String) (v : Value) (f : String)
    (hfiles : ∀ e ∈ fs, e.2.isFileB = true)
    (hdom : formatMatches f v) :
    ∃ fs', LocalFileStorage.save defaultStorage fs k v f = Except.ok fs' ∧
      LocalFileStorage.get defaultStorage fs' k f = Except.ok v := by
  rcases hdom with ⟨hf, j, hv⟩ | ⟨hf, a, hv⟩
  · subst hf
    subst hv
    obtain ⟨fs', h1, h2, h3, h4, h5⟩ :=
      fsWrite_total_of_files fs (k ++ ".json")
        (jsonSerializer.serialize (Value.jsonV j)) hfiles
    refine ⟨fs', ?_, ?_⟩
    · simp [LocalFileStorage.save, SerializerRegistry.get, defaultStorage,
        registry_find_json, build_path, get_extension, ext_find_json, h1]
    · simp [LocalFileStorage.get, SerializerRegistry.get, defaultStorage,
        registry_find_json, build_path, get_extension, ext_find_json, h2,
        jsonSerializer, json_serializer_roundtrip j]
  · subst hf
    subst hv
    obtain ⟨fs', h1, h2, h3, h4, h5⟩ :=
      fsWrite_total_of_files fs (k ++ ".npy")
        (numpySerializer.serialize (Value.npyV a)) hfiles
    refine ⟨fs', ?_, ?_⟩
    · simp [LocalFileStorage.save, SerializerRegistry.get, defaultStorage,
        registry_find_npy, build_path, get_extension, ext_find_npy, h1]
    · simp [LocalFileStorage.get, SerializerRegistry.get, defaultStorage,
        registry_find_npy, build_path, get_extension, ext_find_npy, h2,
        numpySerializer, npy_serializer_roundtrip a]

theorem claim_C1_witness :
    (∀ e ∈ ([] : FS), e.2.isFileB = true) ∧
    formatMatches "json" (Value.jsonV (JsonValue.int 2)) ∧
    ∃ fs', LocalFileStorage.save defaultStorage [] "k"
        (Value.jsonV (JsonValue.int 2)) "json" = Except.ok fs' ∧
      LocalFileStorage.get defaultStorage fs' "k" "json" =
        Except.ok (Value.jsonV (JsonValue.int 2)) :=
  ⟨by simp, Or.inl ⟨rfl, JsonValue.int 2, rfl⟩,
    claim_C1 [] "k" (Value.jsonV (JsonValue.int 2)) "json" (by simp)
      (Or.inl ⟨rfl, JsonValue.int 2, rfl⟩)⟩

/-- C2: save with a format that has no registered serializer fails with the
UnsupportedFormat kind (raised by the registry lookup, before any path is
built or any byte is written) and the directory contents are unchanged. -/
theorem claim_C2 (st : LocalFileStorage) (fs : FS) (k : String) (v : Value)
    (f : String) (h : dictFind st.registry.format_map f = none) :
    LocalFileStorage.save st fs k v f = Except.error (Err.noSerializer f) ∧
    (Err.noSerializer f).isUnsupportedFormat = true ∧
    stepFS st fs (Op.saveOp k v f) = fs := by
  have hs : LocalFileStorage.save st fs k v f = Except.error (Err.noSerializer f) := by
    simp [LocalFileStorage.save, SerializerRegistry.get, h]
  exact ⟨hs, rfl, by simp [stepFS, hs]⟩

theorem claim_C2_witness :
    LocalFileStorage.save defaultStorage [("x.json", EntryKind.file [])] "k"
      (Value.jsonV JsonValue.null) "txt" = Except.error (Err.noSerializer "txt") ∧
    (Err.noSerializer "txt").isUnsupportedFormat = true ∧
    stepFS defaultStorage [("x.json", EntryKind.file [])]
      (Op.saveOp "k" (Value.jsonV JsonValue.null) "txt") =
      [("x.json", EntryKind.file [])] :=
  claim_C2 defaultStorage [("x.json", EntryKind.file [])] "k"
    (Value.jsonV JsonValue.null) "txt" rfl

/-- C5: for a format with no known extension, exists and delete fail with the
UnsupportedFormat error raised by the unconditional extension lookup in
path construction; the result is the same for every directory contents,
reflecting that the failure happens before any filesystem access. -/
theorem claim_C5 (fs : FS) (k f : String)
    (h : dictFind FORMAT_TO_EXTENSION f = none) :
    LocalFileStorage.exists defaultStorage fs k f =
      Except.error (Err.unknownFormat f) ∧
    LocalFileStorage.delete defaultStorage fs k f =
      Except.error (Err.unknownFormat f) ∧
    (Err.unknownFormat f).isUnsupportedFormat = true := by
  refine ⟨?_, ?_, rfl⟩
  · simp [LocalFileStorage.exists, build_path, get_extension, h]
  · simp [LocalFileStorage.delete, build_path, get_extension, h]

theorem claim_C5_witness :
    LocalFileStorage.exists defaultStorage [("a.txt", EntryKind.file [])] "a" "txt" =
      Except.error (Err.unknownFormat "txt") ∧
    LocalFileStorage.delete defaultStorage [("a.txt", EntryKind.file [])] "a" "txt" =
      Except.error (Err.unknownFormat "txt") ∧
    (Err.unknownFormat "txt").isUnsupportedFormat = true :=
  claim_C5 [("a.txt", EntryKind.file [])] "a" "txt" rfl

/-- C6: get fails with the NotFound kind when the format is known but nothing
is stored at the pair, and with the UnsupportedFormat kind when the format
has no registered serializer; the registry lookup comes first in the
source, so for an unregistered format the failure is UnsupportedFormat for
every directory contents, including one where the backing file exists. -/
theorem claim_C6 (st : LocalFileStorage) (fs : FS) (k f : String) :
    (dictFind st.registry.format_map f = none →
      LocalFileStorage.get st fs k f = Except.error (Err.noSerializer f) ∧
      (Err.noSerializer f).isUnsupportedFormat = true) ∧
    (∀ (s : Serializer) (ext : String),
      dictFind st.registry.format_map f = some s →
      dictFind FORMAT_TO_EXTENSION f = some ext →
      fsFind fs (k ++ ext) = none →
      LocalFileStorage.get st fs k f = Except.error (Err.keyNotFound k)) := by
  constructor
  · intro h
    exact ⟨by simp [LocalFileStorage.get, SerializerRegistry.get, h], rfl⟩
  · intro s ext h1 h2 h3
    simp [LocalFileStorage.get, SerializerRegistry.get, h1, build_path,
      get_extension, h2, h3]

theorem claim_C6_witness :
    LocalFileStorage.get ⟨⟨[]⟩⟩ [("k.json", EntryKind.file [])] "k" "json" =
      Except.error (Err.noSerializer "json") ∧
    LocalFileStorage.get defaultStorage [] "k" "json" =
      Except.error (Err.keyNotFound "k") :=
  ⟨((claim_C6 ⟨⟨[]⟩⟩ [("k.json", EntryKind.file [])] "k" "json").1 rfl).1,
    (claim_C6 defaultStorage [] "k" "json").2 jsonSerializer ".json"
      registry_find_json ext_find_json rfl⟩

/-- C7: delete is idempotent in effect: when the stored object exists as a
regular file, the first delete reports true and removes it, the second
reports false and changes nothing, exists is false after either call, and
delete on an absent object reports false instead of failing. -/
theorem claim_C7 (fs : FS) (k f ext : String) (d : Bytes)
    (hext : dictFind FORMAT_TO_EXTENSION f = some ext)
    (hobj : fsFind fs (k ++ ext) = some (EntryKind.file d)) :
    LocalFileStorage.delete defaultStorage fs k f =
      Except.ok (true, fsRemove fs (k ++ ext)) ∧
    LocalFileStorage.delete defaultStorage (fsRemove fs (k ++ ext)) k f =
      Except.ok (false, fsRemove fs (k ++ ext)) ∧
    LocalFileStorage.exists defaultStorage (fsRemove fs (k ++ ext)) k f =
      Except.ok false ∧
    (∀ fs₂, fsFind fs₂ (k ++ ext) = none →
      LocalFileStorage.delete defaultStorage fs₂ k f = Except.ok (false, fs₂)) := by
  have hr := fsRemove_find_self fs (k ++ ext)
  refine ⟨?_, ?_, ?_, ?_⟩
  · simp [LocalFileStorage.delete, build_path, get_extension, hext, hobj]
  · simp [LocalFileStorage.delete, build_path, get_extension, hext, hr]
  · simp [LocalFileStorage.exists, build_path, get_extension, hext, hr]
  · intro fs₂ h2
    simp [LocalFileStorage.delete, build_path, get_extension, hext, h2]

theorem claim_C7_witness :
    LocalFileStorage.delete defaultStorage [("a.json", EntryKind.file [7])] "a" "json" =
      Except.ok (true, fsRemove [("a.json", EntryKind.file [7])] "a.json") ∧
    LocalFileStorage.delete defaultStorage
        (fsRemove [("a.json", EntryKind.file [7])] "a.json") "a" "json" =
      Except.ok (false, fsRemove [("a.json", EntryKind.file [7])] "a.json") ∧
    LocalFileStorage.exists defaultStorage
        (fsRemove [("a.json", EntryKind.file [7])] "a.json") "a" "json" =
      Except.ok false ∧
    (∀ fs₂, fsFind fs₂ ("a" ++ ".json") = none →
      LocalFileStorage.delete defaultStorage fs₂ "a" "json" = Except.ok (false, fs₂)) := by
  have h := claim_C7 [("a.json", EntryKind.file [7])] "a" "json" ".json" [7] rfl
    (by decide)
  exact h

/-- C8: exists never fails for a format with a known extension, never consults
the registry (storages agreeing on the directory but with arbitrary
registries give identical results), and reports true exactly when a
regular file backs the pair, for a directory of regular files. -/
theorem claim_C8 (r₁ r₂ : SerializerRegistry) (fs : FS) (k f ext : String)
    (hext : dictFind FORMAT_TO_EXTENSION f = some ext)
    (hfiles : ∀ e ∈ fs, e.2.isFileB = true) :
    (∃ b, LocalFileStorage.exists ⟨r₁⟩ fs k f = Except.ok b) ∧
    LocalFileStorage.exists ⟨r₁⟩ fs k f = LocalFileStorage.exists ⟨r₂⟩ fs k f ∧
    (LocalFileStorage.exists ⟨r₁⟩ fs k f = Except.ok true ↔
      ∃ d, fsFind fs (k ++ ext) = some (EntryKind.file d)) := by
  have hb : LocalFileStorage.exists ⟨r₁⟩ fs k f =
      Except.ok (fsFind fs (k ++ ext)).isSome := by
    simp [LocalFileStorage.exists, build_path, get_extension, hext]
  refine ⟨⟨_, hb⟩, rfl, ?_⟩
  rw [hb]
  constructor
  · intro h
    have hsome : (fsFind fs (k ++ ext)).isSome = true := by
      simpa using h
    cases he : fsFind fs (k ++ ext) with
    | none => rw [he] at hsome; simp at hsome
    | some e =>
      have hmem := fsFind_mem fs _ e he
      have hfe := hfiles _ hmem
      cases e with
      | dir => simp [EntryKind.isFileB] at hfe
      | file d => exact ⟨d, rfl⟩
  · rintro ⟨d, hd⟩
    rw [hd]
    rfl

theorem claim_C8_witness :
    (∃ b, LocalFileStorage.exists ⟨⟨[]⟩⟩ [("k.json", EntryKind.file [7])] "k" "json" =
      Except.ok b) ∧
    LocalFileStorage.exists ⟨⟨[]⟩⟩ [("k.json", EntryKind.file [7])] "k" "json" =
      LocalFileStorage.exists ⟨defaultRegistry⟩ [("k.json", EntryKind.file [7])] "k" "json" ∧
    (LocalFileStorage.exists ⟨⟨[]⟩⟩ [("k.json", EntryKind.file [7])] "k" "json" =
        Except.ok true ↔
      ∃ d, fsFind [("k.json", EntryKind.file [7])] ("k" ++ ".json") =
        some (EntryKind.file d)) :=
  claim_C8 ⟨[]⟩ defaultRegistry [("k.json", EntryKind.file [7])] "k" "json" ".json"
    rfl (by decide)

/-- C9: registration is total, last registration for a format wins, and
registering the same serializer twice equals registering it once. -/
theorem claim_C9 (r : SerializerRegistry) (s₁ s₂ : Serializer) (f : String)
    (h₁ : s₁.format = f) (h₂ : s₂.format = f) :
    (SerializerRegistry.register (SerializerRegistry.register r s₁) s₂).get f =
      Except.ok s₂ ∧
    SerializerRegistry.register (SerializerRegistry.register r s₁) s₁ =
      SerializerRegistry.register r s₁ := by
  constructor
  · subst h₂
    simp [SerializerRegistry.get, SerializerRegistry.register, dictFind_dictInsert_self]
  · simp [SerializerRegistry.register, dictInsert_idem]

theorem claim_C9_witness :
    (SerializerRegistry.register (SerializerRegistry.register ⟨[]⟩ jsonSerializer)
        (Serializer.mk "json" npySerializeValue npyDeserializeValue)).get "json" =
      Except.ok (Serializer.mk "json" npySerializeValue npyDeserializeValue) ∧
    SerializerRegistry.register (SerializerRegistry.register ⟨[]⟩ jsonSerializer)
        jsonSerializer =
      SerializerRegistry.register ⟨[]⟩ jsonSerializer :=
  claim_C9 ⟨[]⟩ jsonSerializer
    (Serializer.mk "json" npySerializeValue npyDeserializeValue) "json" rfl rfl

/-- C10: for separator-free keys and the two known formats, the derived file
name key plus extension is injective over (key, format) pairs, so save and
delete on one pair leave the backing entry of every other pair unchanged. -/
theorem claim_C10 (k₁ f₁ k₂ f₂ : String)
    (h₁ : f₁ = "json" ∨ f₁ = "npy") (h₂ : f₂ = "json" ∨ f₂ = "npy")
    (_hs₁ : '/' ∉ k₁.data) (_hs₂ : '/' ∉ k₂.data) :
    (pathOfPair (k₁, f₁) = pathOfPair (k₂, f₂) → k₁ = k₂ ∧ f₁ = f₂) ∧
    (∀ (fs : FS) (v : Value), (k₂, f₂) ≠ (k₁, f₁) →
      fsFind (stepFS defaultStorage fs (Op.saveOp k₁ v f₁)) (pathOfPair (k₂, f₂)) =
        fsFind fs (pathOfPair (k₂, f₂)) ∧
      fsFind (stepFS defaultStorage fs (Op.deleteOp k₁ f₁)) (pathOfPair (k₂, f₂)) =
        fsFind fs (pathOfPair (k₂, f₂))) := by
  constructor
  · intro h
    have := pathOfPair_inj (k₁, f₁) (k₂, f₂) h₁ h₂ h
    exact ⟨congrArg Prod.fst this, congrArg Prod.snd this⟩
  · intro fs v hne
    have hpne : pathOfPair (k₂, f₂) ≠ pathOfPair (k₁, f₁) := by
      intro hp
      exact hne (pathOfPair_inj (k₂, f₂) (k₁, f₁) h₂ h₁ hp)
    have hext : dictFind FORMAT_TO_EXTENSION f₁ =
        some ((dictFind FORMAT_TO_EXTENSION f₁).getD "") := by
      rcases h₁ with h | h <;> subst h
      · rw [ext_find_json]; rfl
      · rw [ext_find_npy]; rfl
    have hpath : k₁ ++ (dictFind FORMAT_TO_EXTENSION f₁).getD "" = pathOfPair (k₁, f₁) := rfl
    constructor
    · rw [stepFS]
      cases hsv : LocalFileStorage.save defaultStorage fs k₁ v f₁ with
      | error e => rfl
      | ok fs' =>
        rw [LocalFileStorage.save] at hsv
        cases hreg : SerializerRegistry.get defaultStorage.registry f₁ with
        | error e => rw [hreg] at hsv; exact absurd hsv (by simp)
        | ok s =>
          rw [hreg] at hsv
          rw [build_path, get_extension, hext] at hsv
          simp only at hsv
          cases hw : fsWrite fs (k₁ ++ (dictFind FORMAT_TO_EXTENSION f₁).getD "")
              (s.serialize v) with
          | none => rw [hw] at hsv; exact absurd hsv (by simp)
          | some fsw =>
            rw [hw] at hsv
            simp only [Except.ok.injEq] at hsv
            rw [hpath] at hw
            rw [← hsv]
            exact fsWrite_find_ne fs fsw (pathOfPair (k₁, f₁)) (pathOfPair (k₂, f₂))
              (s.serialize v) hw hpne
    · rw [stepFS]
      cases hdl : LocalFileStorage.delete defaultStorage fs k₁ f₁ with
      | error e => rfl
      | ok pr =>
        rw [LocalFileStorage.delete, build_path, get_extension, hext] at hdl
        simp only at hdl
        cases hf : fsFind fs (k₁ ++ (dictFind FORMAT_TO_EXTENSION f₁).getD "") with
        | none =>
          rw [hf] at hdl
          simp only [Except.ok.injEq] at hdl
          subst hdl
          rfl
        | some e =>
          rw [hf] at hdl
          cases e with
          | dir => exact absurd hdl (by simp)
          | file d =>
            simp only [Except.ok.injEq] at hdl
            subst hdl
            rw [hpath]
            exact fsRemove_find_ne fs (pathOfPair (k₁, f₁)) (pathOfPair (k₂, f₂)) hpne

theorem claim_C10_witness :
    (pathOfPair ("a", "json") = pathOfPair ("a", "npy") → "a" = "a" ∧ "json" = "npy") ∧
    (∀ (fs : FS) (v : Value), ("a", "npy") ≠ ("a", "json") →
      fsFind (stepFS defaultStorage fs (Op.saveOp "a" v "json")) (pathOfPair ("a", "npy")) =
        fsFind fs (pathOfPair ("a", "npy")) ∧
      fsFind (stepFS defaultStorage fs (Op.deleteOp "a" "json")) (pathOfPair ("a", "npy")) =
        fsFind fs (pathOfPair ("a", "npy"))) :=
  claim_C10 "a" "json" "a" "npy" (Or.inl rfl) (Or.inr rfl) (by decide) (by decide)

/-- C4 counterexample: the hidden file .hidden.json (name beginning with a
dot) is a regular file whose pathlib suffix is .json, so count reports 1
for a directory holding only it, while the claimed policy, which ignores
hidden files, reports 0. -/
theorem claim_C4_counterexample :
    LocalFileStorage.count defaultStorage [(".hidden.json", EntryKind.file [])] = 1 ∧
    claimedCountC4 [(".hidden.json", EntryKind.file [])] = 0 := by
  constructor
  · decide
  · decide

/-- C4 (amended): count counts exactly the entries directly inside the base
directory that are regular files whose name is a nonempty stem followed by
a known extension (.json or .npy); subdirectories and files with other
suffixes are not counted, and a hidden file is excluded only when the
extension dot would be its first character (such as .json itself), while a
hidden file such as .hidden.json is counted. -/
theorem claim_C4_amended (st : LocalFileStorage) (fs : FS) :
    LocalFileStorage.count st fs =
      (fs.filter (fun e => e.2.isFileB && knownExtB e.1)).length ∧
    (∀ name : String, knownExtB name = true ↔
      ∃ stem : String, stem ≠ "" ∧
        (name = stem ++ ".json" ∨ name = stem ++ ".npy")) := by
  constructor
  · rw [LocalFileStorage.count]
    congr 1
    apply List.filter_congr
    intro e _he
    rw [suffix_mem_iff_known]
  · intro name
    exact knownExtB_iff name

theorem ext_find_cases (f ext : String)
    (h : dictFind FORMAT_TO_EXTENSION f = some ext) :
    (f = "json" ∧ ext = ".json") ∨ (f = "npy" ∧ ext = ".npy") := by
  by_cases h1 : f = "json"
  · subst h1
    exact Or.inl ⟨rfl, Option.some.inj (h.symm.trans ext_find_json)⟩
  · by_cases h2 : f = "npy"
    · subst h2
      exact Or.inr ⟨rfl, Option.some.inj (h.symm.trans ext_find_npy)⟩
    · rw [ext_find_none f h1 h2] at h
      exact absurd h (by simp)

theorem pairMem_iff (p : String × String) (S : List (String × String)) :
    pairMem p S = true ↔ p ∈ S := by
  induction S with
  | nil => simp [pairMem]
  | cons q rest ih =>
    by_cases h : q = p
    · subst h
      simp [pairMem]
    · simp [pairMem, h, ih, Ne.symm h]

theorem map_pathOf_filter (S : List (String × String))
    (hS : ∀ p ∈ S, p.1 ≠ "" ∧ (p.2 = "json" ∨ p.2 = "npy"))
    (p : String × String) (hp : p.2 = "json" ∨ p.2 = "npy") :
    (S.filter (fun q => !(decide (q = p)))).map pathOfPair =
      (S.map pathOfPair).filter (fun n => decide (n ≠ pathOfPair p)) := by
  induction S with
  | nil => simp
  | cons q rest ih =>
    have hq := hS q (by simp)
    have hrest : ∀ x ∈ rest, x.1 ≠ "" ∧ (x.2 = "json" ∨ x.2 = "npy") :=
      fun x hx => hS x (by simp [hx])
    by_cases hqp : q = p
    · subst hqp
      simp [ih hrest]
    · have hne : pathOfPair q ≠ pathOfPair p :=
        fun hc => hqp (pathOfPair_inj q p hq.2 hp hc)
      simp [hqp, hne, ih hrest]

theorem count_of_inv (fs : FS) (S : List (String × String)) (hinv : InvFS fs S) :
    LocalFileStorage.count defaultStorage fs = S.length := by
  obtain ⟨hnames, hfiles, hvalid⟩ := hinv
  rw [LocalFileStorage.count]
  have hall : ∀ e ∈ fs,
      (e.2.isFileB && memStr (pySuffix e.1) (FORMAT_TO_EXTENSION.map Prod.snd)) = true := by
    intro e he
    rw [Bool.and_eq_true]
    refine ⟨hfiles e he, ?_⟩
    have hm : e.1 ∈ fs.map Prod.fst := List.mem_map_of_mem Prod.fst he
    rw [hnames] at hm
    obtain ⟨⟨k, f⟩, hpS, hpe⟩ := List.mem_map.mp hm
    obtain ⟨hk, hf⟩ := hvalid (k, f) hpS
    rw [memStr_exts, ← hpe]
    rcases hf with h | h
    · subst h
      rw [pathOfPair_json]
      exact Or.inl (pySuffix_append_json k hk)
    · subst h
      rw [pathOfPair_npy]
      exact Or.inr (pySuffix_append_npy k hk)
  have hlen : fs.length = S.length := by
    have h := congrArg List.length hnames
    simpa using h
  rw [List.filter_eq_self.mpr hall, hlen]

theorem invFS_step (fs : FS) (S : List (String × String)) (op : Op)
    (hinv : InvFS fs S) (hop : goodOp op) :
    InvFS (stepFS defaultStorage fs op) (absStep S op) := by
  obtain ⟨hnames, hfiles, hvalid⟩ := hinv
  cases op with
  | getOp k f => exact ⟨hnames, hfiles, hvalid⟩
  | existsOp k f => exact ⟨hnames, hfiles, hvalid⟩
  | countOp => exact ⟨hnames, hfiles, hvalid⟩
  | saveOp k v f =>
    obtain ⟨hk, _hsep⟩ := hop
    cases hreg : dictFind defaultRegistry.format_map f with
    | none =>
      have hsv : LocalFileStorage.save defaultStorage fs k v f =
          Except.error (Err.noSerializer f) := by
        simp [LocalFileStorage.save, SerializerRegistry.get, defaultStorage, hreg]
      simp only [stepFS, hsv, absStep, hreg, Option.isSome_none, Bool.false_eq_true,
        if_false]
      exact ⟨hnames, hfiles, hvalid⟩
    | some s =>
      have hcase := registry_find_cases f s hreg
      have hfval : f = "json" ∨ f = "npy" := by
        rcases hcase with ⟨h, _⟩ | ⟨h, _⟩
        · exact Or.inr h
        · exact Or.inl h
      obtain ⟨ext, hext⟩ : ∃ e, dictFind FORMAT_TO_EXTENSION f = some e := by
        rcases hfval with h | h <;> subst h
        · exact ⟨".json", ext_find_json⟩
        · exact ⟨".npy", ext_find_npy⟩
      have hpath : pathOfPair (k, f) = k ++ ext := by
        simp [pathOfPair, hext]
      obtain ⟨fs', hw, hfind, hfiles', hne, hnames'⟩ :=
        fsWrite_total_of_files fs (k ++ ext) (s.serialize v) hfiles
      have hsv : LocalFileStorage.save defaultStorage fs k v f = Except.ok fs' := by
        simp [LocalFileStorage.save, SerializerRegistry.get, defaultStorage, hreg,
          build_path, get_extension, hext, hw]
      have hpmem : (fsFind fs (k ++ ext)).isSome = true ↔ (k, f) ∈ S := by
        rw [fsFind_isSome_iff, hnames]
        constructor
        · intro hm
          obtain ⟨q, hq, hqe⟩ := List.mem_map.mp hm
          have hqv := hvalid q hq
          have heq : q = (k, f) :=
            pathOfPair_inj q (k, f) hqv.2 hfval (by rw [hqe, hpath])
          rwa [heq] at hq
        · intro hm
          rw [← hpath]
          exact List.mem_map_of_mem pathOfPair hm
      simp only [stepFS, hsv, absStep, hreg, Option.isSome_some, if_true]
      by_cases hmem : pairMem (k, f) S = true
      · rw [if_pos hmem]
        have hks : (k, f) ∈ S := (pairMem_iff _ _).mp hmem
        have hsome : (fsFind fs (k ++ ext)).isSome = true := hpmem.mpr hks
        rw [if_pos hsome] at hnames'
        exact ⟨by rw [hnames', hnames], hfiles', hvalid⟩
      · rw [if_neg hmem]
        have hks : (k, f) ∉ S := fun hc => hmem ((pairMem_iff _ _).mpr hc)
        have hnone : ¬ (fsFind fs (k ++ ext)).isSome = true :=
          fun hc => hks (hpmem.mp hc)
        rw [if_neg hnone] at hnames'
        refine ⟨?_, hfiles', ?_⟩
        · rw [hnames', hnames, List.map_append]
          simp [hpath]
        · intro p hp
          rcases List.mem_append.mp hp with h | h
          · exact hvalid p h
          · simp only [List.mem_singleton] at h
            subst h
            exact ⟨hk, hfval⟩
  | deleteOp k f =>
    obtain ⟨hk, _hsep⟩ := hop
    cases hext0 : dictFind FORMAT_TO_EXTENSION f with
    | none =>
      have hdl : LocalFileStorage.delete defaultStorage fs k f =
          Except.error (Err.unknownFormat f) := by
        simp [LocalFileStorage.delete, build_path, get_extension, hext0]
      simp only [stepFS, hdl, absStep, hext0, Option.isSome_none, Bool.false_eq_true,
        if_false]
      exact ⟨hnames, hfiles, hvalid⟩
    | some ext =>
      have hfc := ext_find_cases f ext hext0
      have hfval : f = "json" ∨ f = "npy" := by
        rcases hfc with ⟨h, _⟩ | ⟨h, _⟩
        · exact Or.inl h
        · exact Or.inr h
      have hpath : pathOfPair (k, f) = k ++ ext := by
        simp [pathOfPair, hext0]
      cases hf : fsFind fs (k ++ ext) with
      | none =>
        have hdl : LocalFileStorage.delete defaultStorage fs k f =
            Except.ok (false, fs) := by
          simp [LocalFileStorage.delete, build_path, get_extension, hext0, hf]
        simp only [stepFS, hdl, absStep, hext0, Option.isSome_some, if_true]
        have hks : (k, f) ∉ S := by
          intro hc
          have hm : pathOfPair (k, f) ∈ S.map pathOfPair :=
            List.mem_map_of_mem pathOfPair hc
          rw [← hnames, hpath] at hm
          exact (fsFind_none_iff fs (k ++ ext)).mp hf hm
        have hfilter : S.filter (fun q => !(decide (q = (k, f)))) = S := by
          apply List.filter_eq_self.mpr
          intro q hq
          have : q ≠ (k, f) := fun hc => hks (hc ▸ hq)
          simp [this]
        rw [hfilter]
        exact ⟨hnames, hfiles, hvalid⟩
      | some e =>
        have hmem := fsFind_mem fs _ e hf
        have hfe := hfiles _ hmem
        cases e with
        | dir => simp [EntryKind.isFileB] at hfe
        | file d =>
          have hdl : LocalFileStorage.delete defaultStorage fs k f =
              Except.ok (true, fsRemove fs (k ++ ext)) := by
            simp [LocalFileStorage.delete, build_path, get_extension, hext0, hf]
          simp only [stepFS, hdl, absStep, hext0, Option.isSome_some, if_true]
          refine ⟨?_, fsRemove_files fs (k ++ ext) hfiles, ?_⟩
          · rw [fsRemove_map_fst, hnames, ← hpath]
            exact (map_pathOf_filter S hvalid (k, f) hfval).symm
          · intro p hp
            exact hvalid p (List.mem_of_mem_filter hp)

theorem run_inv (ops : List Op) (hgood : ∀ op ∈ ops, goodOp op) :
    ∀ (fs : FS) (S : List (String × String)), InvFS fs S →
      InvFS (runFS defaultStorage fs ops) (absRun S ops) := by
  induction ops with
  | nil => intro fs S h; exact h
  | cons op rest ih =>
    intro fs S h
    have h1 := invFS_step fs S op h (hgood op (by simp))
    have hrest : ∀ o ∈ rest, goodOp o := fun o ho => hgood o (by simp [ho])
    exact ih hrest _ _ h1

/-- C3: starting from a fresh storage over an empty directory, after any
sequence of API calls with valid keys, count equals the number of distinct
(key, format) pairs recorded by successful saves and not discharged by a
later delete; get and exists never alter the directory, hence never alter
what count returns. -/
theorem claim_C3 (ops : List Op) (hgood : ∀ op ∈ ops, goodOp op) :
    LocalFileStorage.count defaultStorage (runFS defaultStorage [] ops) =
      (absRun [] ops).length ∧
    (∀ (fs : FS) (k f : String),
      stepFS defaultStorage fs (Op.getOp k f) = fs ∧
      stepFS defaultStorage fs (Op.existsOp k f) = fs) := by
  constructor
  · have hinv0 : InvFS [] [] := ⟨rfl, by simp, by simp⟩
    exact count_of_inv _ _ (run_inv ops hgood [] [] hinv0)
  · intro fs k f
    exact ⟨rfl, rfl⟩

theorem claim_C3_witness :
    (∀ op ∈ [Op.saveOp "a" (Value.jsonV JsonValue.null) "json",
        Op.saveOp "b" (Value.npyV (NdArray.mk "i8" [1] [3])) "npy",
        Op.getOp "a" "json", Op.existsOp "b" "npy", Op.countOp,
        Op.deleteOp "a" "json"], goodOp op) ∧
    (LocalFileStorage.count defaultStorage
        (runFS defaultStorage []
          [Op.saveOp "a" (Value.jsonV JsonValue.null) "json",
            Op.saveOp "b" (Value.npyV (NdArray.mk "i8" [1] [3])) "npy",
            Op.getOp "a" "json", Op.existsOp "b" "npy", Op.countOp,
            Op.deleteOp "a" "json"]) =
      (absRun []
          [Op.saveOp "a" (Value.jsonV JsonValue.null) "json",
            Op.saveOp "b" (Value.npyV (NdArray.mk "i8" [1] [3])) "npy",
            Op.getOp "a" "json", Op.existsOp "b" "npy", Op.countOp,
            Op.deleteOp "a" "json"]).length ∧
      (∀ (fs : FS) (k f : String),
        stepFS defaultStorage fs (Op.getOp k f) = fs ∧
        stepFS defaultStorage fs (Op.existsOp k f) = fs)) := by
  have hgood : ∀ op ∈ [Op.saveOp "a" (Value.jsonV JsonValue.null) "json",
      Op.saveOp "b" (Value.npyV (NdArray.mk "i8" [1] [3])) "npy",
      Op.getOp "a" "json", Op.existsOp "b" "npy", Op.countOp,
      Op.deleteOp "a" "json"], goodOp op := by
    intro op hop
    simp only [List.mem_cons, List.not_mem_nil, or_false] at hop
    rcases hop with rfl | rfl | rfl | rfl | rfl | rfl
    · exact ⟨by decide, by decide⟩
    · exact ⟨by decide, by decide⟩
    · exact trivial
    · exact trivial
    · exact trivial
    · exact ⟨by decide, by decide⟩
  exact ⟨hgood, claim_C3 _ hgood⟩
